import Mathlib

/-!
Shallow embedding of the isekai API gateway core (Go) and proofs about it.

Each definition is translated from the repository source:
  * `internal/cache/cache.go`        — metadata cache (TTL, eviction)
  * `internal/middleware` rate limiter, `internal/proxy` forwarder,
    `internal/circuitbreaker` (sony/gobreaker vendored semantics),
    `internal/handlers/handlers.go`  — route CRUD and proxy lifecycle,
    `internal/database`              — RouteRepository queries,
    `internal/core/engine.go`        — shutdown channel wiring.

Go `time.Time`/`UnixNano` values are modelled as `Int` (nanoseconds); the Go
zero time is the value `0` where the source tests `IsZero`.  Go maps are
modelled as association lists whose order stands in for map iteration order.
-/

namespace Isekai

/-! ## Metadata cache — `internal/cache/cache.go`

`Item` carries an opaque value and an `int64` expiration (`UnixNano`).
`Cache.items` models the Go `map[string]*Item`; `maxSize` is the `int64`
config field.  Values are a type parameter (Go stores `interface{}`). -/

/-- Cached item: `Item{Value, Expiration}` from cache.go. -/
structure Item (α : Type) where
  value : α
  expiration : Int
deriving DecidableEq, Repr

/-- The cache structure: the `items` map plus the `maxSize` bound.
(The lock, logger and cleanup channel carry no state we reason about.) -/
structure Cache (α : Type) where
  items : List (String × Item α)
  maxSize : Int
deriving DecidableEq, Repr

/-- Association-list lookup, modelling `c.items[key]`. -/
def lookupKey {α : Type} : List (String × Item α) → String → Option (Item α)
  | [], _ => none
  | kv :: rest, k => if kv.1 = k then some kv.2 else lookupKey rest k

/-- Map assignment `c.items[key] = item`: replace an existing binding in
place, else append. -/
def setKey {α : Type} : List (String × Item α) → String → Item α → List (String × Item α)
  | [], k, it => [(k, it)]
  | kv :: rest, k, it => if kv.1 = k then (k, it) :: rest else kv :: setKey rest k it

/-- Map deletion `delete(c.items, key)`: the binding for `key` is gone
afterwards. -/
def removeKey {α : Type} (l : List (String × Item α)) (k : String) :
    List (String × Item α) :=
  l.filter (fun kv => kv.1 ≠ k)

/-- `1<<63 - 1`, the initial value of `oldestTime` in `evictOldest`. -/
def maxInt64 : Int := 2 ^ 63 - 1

/-- The loop body of `evictOldest`: track `(oldestKey, oldestTime)` across the
range over the map, updating on a strictly smaller expiration. -/
def oldestScan {α : Type} (items : List (String × Item α)) (acc : String × Int) :
    String × Int :=
  items.foldl
    (fun acc kv => if kv.2.expiration < acc.2 then (kv.1, kv.2.expiration) else acc)
    acc

/-- `Cache.evictOldest`: scan for the entry with the smallest expiration,
starting from `oldestKey = ""`, `oldestTime = 1<<63 - 1`; delete it only when
`oldestKey != ""`. -/
def Cache.evictOldest {α : Type} (c : Cache α) : Cache α :=
  let best := oldestScan c.items ("", maxInt64)
  if best.1 ≠ "" then { c with items := removeKey c.items best.1 } else c

/-- `Cache.SetWithTTL`: evict when `int64(len(c.items)) >= c.maxSize`, then
store the value with expiration `time.Now().Add(ttl).UnixNano() = now + ttl`. -/
def Cache.setWithTTL {α : Type} (c : Cache α) (key : String) (value : α)
    (now ttl : Int) : Cache α :=
  let c := if (c.items.length : Int) ≥ c.maxSize then c.evictOldest else c
  { c with items := setKey c.items key ⟨value, now + ttl⟩ }

/-- `Cache.Get`: a hit requires presence and `now ≤ expiration`
(the source returns a miss when `time.Now().UnixNano() > item.Expiration`). -/
def Cache.get {α : Type} (c : Cache α) (key : String) (now : Int) : Option α :=
  match lookupKey c.items key with
  | none => none
  | some it => if it.expiration < now then none else some it.value

/-- `Cache.Delete`. -/
def Cache.delete {α : Type} (c : Cache α) (key : String) : Cache α :=
  { c with items := removeKey c.items key }

/-- `Cache.Clear`. -/
def Cache.clear {α : Type} (c : Cache α) : Cache α :=
  { c with items := [] }

/-- `Cache.Size`. -/
def Cache.size {α : Type} (c : Cache α) : Nat :=
  c.items.length

/-- One cache mutation, for sequences of operations (claim C7): `Set` and
`SetWithTTL` both reach `SetWithTTL` in the source, so a set op carries the
caller's `now` and the effective TTL. -/
inductive CacheOp (α : Type) where
  | set (key : String) (value : α) (now ttl : Int)
  | del (key : String)
  | clear
deriving DecidableEq, Repr

/-- Run a sequence of cache operations. -/
def runCacheOps {α : Type} (c : Cache α) : List (CacheOp α) → Cache α
  | [] => c
  | CacheOp.set k v now ttl :: rest => runCacheOps (c.setWithTTL k v now ttl) rest
  | CacheOp.del k :: rest => runCacheOps (c.delete k) rest
  | CacheOp.clear :: rest => runCacheOps c.clear rest

/-- Well-formed cache operation: a set uses a nonempty key and a real
(int64-representable) expiration `now + ttl`, i.e. one below the scan
sentinel `1<<63 - 1` — true of every `UnixNano` expiration the program
computes. -/
def opOK {α : Type} : CacheOp α → Prop
  | CacheOp.set k _ now ttl => k ≠ "" ∧ now + ttl < maxInt64
  | CacheOp.del _ => True
  | CacheOp.clear => True

instance {α : Type} : DecidablePred (opOK (α := α)) := by
  intro op
  cases op <;> simp only [opOK] <;> infer_instance

/-- Distinctness of the keys of the items map — what being a Go `map`
guarantees. -/
def keysDistinct {α : Type} (l : List (String × Item α)) : Prop :=
  (l.map Prod.fst).Nodup

/-- The state invariant of a cache whose operations were all well-formed:
fixed `maxSize`, map-distinct keys, nonempty keys with representable
expirations, and the size bound itself. -/
def cacheInv {α : Type} (ms : Int) (c : Cache α) : Prop :=
  c.maxSize = ms ∧ keysDistinct c.items ∧
  (∀ kv ∈ c.items, kv.1 ≠ "" ∧ kv.2.expiration < maxInt64) ∧
  ((c.items.length : Int) ≤ ms)

/-! ## Forwarder headers — `internal/proxy/proxy.go` (`Proxy.Forward`)

HTTP headers are modelled as a total map from header name to its list of
values (`http.Header`); the source keys in play are already in canonical
form.  The request fields used by the header logic are `RemoteAddr`, `TLS`,
`Host` and the header map. -/

/-- Header map: name to list of values. -/
def Headers : Type := String → List String

/-- `http.Header.Set`: replace all values of a key with one value. -/
def Headers.set (h : Headers) (k v : String) : Headers :=
  fun k' => if k' = k then [v] else h k'

/-- The inbound-request fields read by `Proxy.Forward`. -/
structure InboundRequest where
  method : String
  path : String
  remoteAddr : String
  host : String
  tls : Bool
  userAgent : String
  headers : Headers

/-- Outbound header construction in `Proxy.Forward`:
`req.Header = r.Header.Clone()`, then the propagator inject (the repository
never calls `otel.SetTextMapPropagator`, so the global propagator is the
default empty composite and injects nothing — the identity), then
`Set("X-Forwarded-For", r.RemoteAddr)`, `Set("X-Forwarded-Proto", "http")`,
overwritten with `"https"` when `r.TLS != nil`, and
`Set("X-Forwarded-Host", r.Host)`. -/
def forwardHeaders (r : InboundRequest) : Headers :=
  let h := r.headers
  let h := h.set "X-Forwarded-For" r.remoteAddr
  let h := h.set "X-Forwarded-Proto" "http"
  let h := if r.tls then h.set "X-Forwarded-Proto" "https" else h
  h.set "X-Forwarded-Host" r.host

/-! ## Rate limiter — `internal/middleware/middleware.go` (`RateLimiter.Allow`)

Timestamps are `Int` (any fixed unit); `window` is `time.Second` in the
source, kept as a positive field so statements can name it.  The `requests`
map is an association list from client IP to its timestamp slice. -/

/-- The rate limiter state read and written by `Allow`. -/
structure RateLimiter where
  requests : List (String × List Int)
  limit : Int
  window : Int
deriving DecidableEq, Repr

/-- Lookup of `rl.requests[clientIP]` (with the `exists` flag as `Option`). -/
def lookupClient : List (String × List Int) → String → Option (List Int)
  | [], _ => none
  | kv :: rest, c => if kv.1 = c then some kv.2 else lookupClient rest c

/-- Map assignment `rl.requests[clientIP] = times`. -/
def setClient : List (String × List Int) → String → List Int → List (String × List Int)
  | [], c, ts => [(c, ts)]
  | kv :: rest, c, ts => if kv.1 = c then (c, ts) :: rest else kv :: setClient rest c ts

/-- `RateLimiter.Allow(clientIP)` at time `now`.  Faithful branch structure:
a client with no entry is admitted unconditionally and `[now]` is stored;
otherwise timestamps not after `cutoff = now - window` are filtered out,
the request is denied when `len(valid) >= limit` (pruned slice written
back), else `now` is appended and the request admitted. -/
def RateLimiter.allow (rl : RateLimiter) (clientIP : String) (now : Int) :
    Bool × RateLimiter :=
  let cutoff := now - rl.window
  match lookupClient rl.requests clientIP with
  | none => (true, { rl with requests := setClient rl.requests clientIP [now] })
  | some times =>
    let valid := times.filter (fun t => cutoff < t)
    if (valid.length : Int) ≥ rl.limit then
      (false, { rl with requests := setClient rl.requests clientIP valid })
    else
      (true, { rl with requests := setClient rl.requests clientIP (valid ++ [now]) })

/-- Run a sequence of `Allow` calls for one client, counting admissions. -/
def runAllow (rl : RateLimiter) (clientIP : String) : List Int → Nat × RateLimiter
  | [] => (0, rl)
  | now :: rest =>
    let step := rl.allow clientIP now
    let tail := runAllow step.2 clientIP rest
    ((if step.1 then 1 else 0) + tail.1, tail.2)

/-! ## Circuit breaker — `internal/circuitbreaker/circuitbreaker.go`

The repository wraps `sony/gobreaker` with the settings
`MaxRequests: 3`, `Interval: 10s`, `Timeout: 60s` and
`ReadyToTrip: counts.Requests >= 3 && TotalFailures/Requests >= 0.6`.
The gobreaker state machine is embedded below; times are `Int` seconds and
the Go zero `time.Time` (tested with `IsZero` / always `Before` a live
clock) is the value `0`, with live clocks positive.

The float test `float64(TotalFailures)/float64(Requests) >= 0.6` is embedded
as `5 * TotalFailures ≥ 3 * Requests`: rounding is monotone, the literal
`0.6` rounds to the same float64 as `3.0/5.0`, and no fraction with a
denominator below `2^32` other than `3/5` itself lies within the half-ulp
band around `0.6`, so the two tests agree on all `uint32` counts. -/

/-- gobreaker `State`. -/
inductive CBState where
  | closed
  | halfOpen
  | opened
deriving DecidableEq, Repr

/-- gobreaker `Counts`. -/
structure Counts where
  requests : Nat
  totalSuccesses : Nat
  totalFailures : Nat
  consecutiveSuccesses : Nat
  consecutiveFailures : Nat
deriving DecidableEq, Repr

/-- `Counts.onRequest`. -/
def Counts.onRequest (c : Counts) : Counts :=
  { c with requests := c.requests + 1 }

/-- `Counts.onSuccess`. -/
def Counts.onSuccess (c : Counts) : Counts :=
  { c with totalSuccesses := c.totalSuccesses + 1,
           consecutiveSuccesses := c.consecutiveSuccesses + 1,
           consecutiveFailures := 0 }

/-- `Counts.onFailure`. -/
def Counts.onFailure (c : Counts) : Counts :=
  { c with totalFailures := c.totalFailures + 1,
           consecutiveFailures := c.consecutiveFailures + 1,
           consecutiveSuccesses := 0 }

/-- `Counts.clear`. -/
def Counts.clear : Counts := ⟨0, 0, 0, 0, 0⟩

/-- `MaxRequests` from the repository settings. -/
def cbMaxRequests : Nat := 3

/-- `Interval` (10 seconds). -/
def cbInterval : Int := 10

/-- `Timeout` (60 seconds). -/
def cbTimeout : Int := 60

/-- The repository's `ReadyToTrip`:
`counts.Requests >= 3 && failures/requests >= 0.6` (see the header note on
the float comparison). -/
def readyToTrip (c : Counts) : Bool :=
  3 ≤ c.requests && 3 * c.requests ≤ 5 * c.totalFailures

/-- One gobreaker instance: state, counts, generation and `expiry`
(`0` = the Go zero time). -/
structure Breaker where
  state : CBState
  counts : Counts
  generation : Nat
  expiry : Int
deriving DecidableEq, Repr

/-- gobreaker `toNewGeneration`: bump the generation, clear counts, and set
`expiry` from the current state (`Interval` is non-zero here, so the Closed
arm always sets `now + Interval`; HalfOpen gets the zero time). -/
def Breaker.toNewGeneration (b : Breaker) (now : Int) : Breaker :=
  { b with
    generation := b.generation + 1
    counts := Counts.clear
    expiry :=
      match b.state with
      | .closed => now + cbInterval
      | .opened => now + cbTimeout
      | .halfOpen => 0 }

/-- gobreaker `setState`: no-op on the same state, else switch and start a
new generation (expiry is computed from the new state). -/
def Breaker.setState (b : Breaker) (s : CBState) (now : Int) : Breaker :=
  if b.state = s then b
  else Breaker.toNewGeneration { b with state := s } now

/-- gobreaker `currentState`: in Closed, roll to a new generation when the
interval expired (`!expiry.IsZero() && expiry.Before(now)`); in Open, move
to HalfOpen when the timeout expired (`expiry.Before(now)`). -/
def Breaker.currentState (b : Breaker) (now : Int) : Breaker :=
  match b.state with
  | .closed => if b.expiry ≠ 0 ∧ b.expiry < now then b.toNewGeneration now else b
  | .opened => if b.expiry < now then b.setState .halfOpen now else b
  | .halfOpen => b

/-- The two gobreaker admission errors. -/
inductive CBErr where
  | openState
  | tooManyRequests
deriving DecidableEq, Repr

/-- gobreaker `beforeRequest`: refresh the state for `now`; reject with
`ErrOpenState` when Open, with `ErrTooManyRequests` when HalfOpen at the
probe cap, else count the request and hand back the generation. -/
def Breaker.beforeRequest (b : Breaker) (now : Int) : Breaker × Sum CBErr Nat :=
  let b := b.currentState now
  match b.state with
  | .opened => (b, Sum.inl CBErr.openState)
  | .halfOpen =>
    if cbMaxRequests ≤ b.counts.requests then (b, Sum.inl CBErr.tooManyRequests)
    else ({ b with counts := b.counts.onRequest }, Sum.inr b.generation)
  | .closed => ({ b with counts := b.counts.onRequest }, Sum.inr b.generation)

/-- gobreaker `onSuccess`. -/
def Breaker.onSuccess (b : Breaker) (now : Int) : Breaker :=
  match b.state with
  | .closed => { b with counts := b.counts.onSuccess }
  | .halfOpen =>
    let b := { b with counts := b.counts.onSuccess }
    if cbMaxRequests ≤ b.counts.consecutiveSuccesses then b.setState .closed now else b
  | .opened => b

/-- gobreaker `onFailure`: trip from Closed when `ReadyToTrip` holds after
counting the failure; any HalfOpen failure reopens. -/
def Breaker.onFailure (b : Breaker) (now : Int) : Breaker :=
  match b.state with
  | .closed =>
    let b := { b with counts := b.counts.onFailure }
    if readyToTrip b.counts then b.setState .opened now else b
  | .halfOpen => b.setState .opened now
  | .opened => b

/-- gobreaker `afterRequest`: drop the report when the generation changed. -/
def Breaker.afterRequest (b : Breaker) (beforeGen : Nat) (success : Bool)
    (now : Int) : Breaker :=
  let b := b.currentState now
  if b.generation ≠ beforeGen then b
  else if success then b.onSuccess now else b.onFailure now

/-- Result of one `Execute` call: the new breaker, whether the protected
function ran (`invoked`), and the admission error if any.  `outcome` is
whether the protected call would succeed (gobreaker's default
`IsSuccessful err = (err == nil)`). -/
structure ExecResult where
  breaker : Breaker
  invoked : Bool
  err : Option CBErr
deriving DecidableEq, Repr

/-- gobreaker `Execute` (as driven by `CircuitBreaker.Execute` in the
repository): `beforeRequest`, then — only when admitted — run the protected
function and report via `afterRequest`. -/
def Breaker.execute (b : Breaker) (now : Int) (outcome : Bool) : ExecResult :=
  match b.beforeRequest now with
  | (b, Sum.inl e) => ⟨b, false, some e⟩
  | (b, Sum.inr gen) => ⟨b.afterRequest gen outcome now, true, none⟩

/-- `gobreaker.NewCircuitBreaker`: Closed, zero counts, and an initial
`toNewGeneration` at construction time. -/
def Breaker.new (t0 : Int) : Breaker :=
  Breaker.toNewGeneration ⟨.closed, Counts.clear, 0, 0⟩ t0

/-- Run `Execute` over a list of `(now, outcome)` calls. -/
def Breaker.run (b : Breaker) : List (Int × Bool) → Breaker
  | [] => b
  | (now, outcome) :: rest => ((b.execute now outcome).breaker).run rest

/-! ## Route store — `internal/database/repository.go`

The `routes` relation is modelled as a list of rows; `QueryRow` takes the
first matching row.  `FindByPath` runs
`WHERE path = $1 AND method = $2 AND enabled = true`. -/

/-- A `routes` row (timestamps omitted — no claim reads them). -/
structure Route where
  id : Nat
  path : String
  targetURL : String
  method : String
  enabled : Bool
  rateLimit : Int
  timeout : Int
deriving DecidableEq, Repr

/-- `RouteRepository.FindByPath`: the first row with matching path and
method **and `enabled = true`**; `ErrNoRows` (here `none`) otherwise. -/
def findByPath (db : List Route) (path method : String) : Option Route :=
  db.find? (fun rt => rt.path = path && rt.method = method && rt.enabled)

/-! ## Route CRUD handlers — cache invalidation (`internal/handlers/handlers.go`)

Each definition is the cache effect of the corresponding handler's success
path (after the repository call returned `nil`).  `idStr` in the source is
the decimal URL parameter, here `toString id`. -/

/-- `RouteHandler.Create` success path: the only invalidation performed is
`h.cache.Delete("routes:all")` (handlers.go:195); no per-id key is
deleted.  `id` is the id the repository assigned to the new route. -/
def createInvalidate {α : Type} (c : Cache α) (_id : Nat) : Cache α :=
  c.delete "routes:all"

/-- `RouteHandler.Update` success path: `Delete("routes:all")` then
`Delete("route:" + idStr)` (handlers.go:272-273). -/
def updateInvalidate {α : Type} (c : Cache α) (id : Nat) : Cache α :=
  (c.delete "routes:all").delete ("route:" ++ toString id)

/-- `RouteHandler.Delete` success path: `Delete("routes:all")` then
`Delete("route:" + idStr)` (handlers.go:320-321). -/
def deleteInvalidate {α : Type} (c : Cache α) (id : Nat) : Cache α :=
  (c.delete "routes:all").delete ("route:" ++ toString id)

/-! ## Proxy lifecycle handler — `ProxyHandler.Handle` (handlers.go:364-444) -/

/-- A `request_logs` row as built by `ProxyHandler.logRequest`
(response-time column omitted — no claim reads it). -/
structure LogRecord where
  routeID : Option Nat
  method : String
  path : String
  statusCode : Nat
  clientIP : String
  userAgent : String
deriving DecidableEq, Repr

/-- Outcome of the breaker-wrapped `proxy.ForwardAndCopy` call, the one
effectful step `Handle` delegates: on success the forwarder has copied the
upstream status (and body) to the client; otherwise `cb.Execute` returned an
error and nothing was written by the forwarder. -/
inductive ProxyOutcome where
  | ok (upstreamStatus : Nat)
  | fail
deriving DecidableEq, Repr

/-- What `ProxyHandler.Handle` produced: the status (and, for the handler's
own error replies, the message) written to the client, the cache state after
the handler, and the log records submitted to `logRequest`. -/
structure HandleResult (α : Type) where
  clientStatus : Nat
  clientMsg : Option String
  cache : Cache α
  submitted : List LogRecord
deriving DecidableEq, Repr

/-- `ProxyHandler.Handle`: look the route up via `repo.FindByPath` (there is
no cache access anywhere in the function — the cache is threaded through
unchanged); 404 + log with nil route id when not found; 503 "Route is
disabled" + log when the found route is disabled; else run the breaker-
wrapped forward, reply 503 on error, and log with `statusCode` fixed to
`http.StatusOK` on the success path (handlers.go:411). -/
def ProxyHandler.handle {α : Type} (cache : Cache α) (db : List Route)
    (req : InboundRequest) (outcome : ProxyOutcome) : HandleResult α :=
  match findByPath db req.path req.method with
  | none =>
    ⟨404, some "Route not found", cache,
      [⟨none, req.method, req.path, 404, req.remoteAddr, req.userAgent⟩]⟩
  | some route =>
    if route.enabled = false then
      ⟨503, some "Route is disabled", cache,
        [⟨some route.id, req.method, req.path, 503, req.remoteAddr, req.userAgent⟩]⟩
    else
      match outcome with
      | ProxyOutcome.ok upstreamStatus =>
        ⟨upstreamStatus, none, cache,
          [⟨some route.id, req.method, req.path, 200, req.remoteAddr, req.userAgent⟩]⟩
      | ProxyOutcome.fail =>
        ⟨503, some "Service temporarily unavailable", cache,
          [⟨some route.id, req.method, req.path, 503, req.remoteAddr, req.userAgent⟩]⟩

/-- `ProxyHandler.logRequest` persistence: the goroutine inserts the record;
on error it only logs (`h.log.Errorf`) and swallows the failure, so a failed
write leaves no row and touches nothing else. -/
def persistedLogs {α : Type} (res : HandleResult α) (logWriteOk : Bool) :
    List LogRecord :=
  if logWriteOk then res.submitted else []

/-- Numeric constant: the 2-minute TTL (`2*time.Minute`, in nanoseconds)
used by the read handlers. -/
def twoMinutes : Int := 120 * 1000000000

/-- Modelled from the spec: the route-resolution protocol claim C3 ascribes
to the lifecycle handler — "cache-lookup `route:<path>:<method>`; on miss
call `C1.find`; cache the result with a short TTL (2 minutes)".  This
definition exists to be compared with `ProxyHandler.handle`, which is the
code's actual behaviour. -/
def specResolveRoute (cache : Cache Route) (db : List Route)
    (req : InboundRequest) (now : Int) : Option Route × Cache Route :=
  let key := "route:" ++ req.path ++ ":" ++ req.method
  match cache.get key now with
  | some rt => (some rt, cache)
  | none =>
    match findByPath db req.path req.method with
    | none => (none, cache)
    | some rt => (some rt, cache.setWithTTL key rt now twoMinutes)

/-! ## Shutdown channel — `internal/core/engine.go`

`shutdown` is `make(chan os.Signal, 1)` fed by `signal.Notify` (one value
per delivered signal) and **never closed**.  Its consumers are the
`Start` loop (`<-e.shutdown` before calling `Stop`) and the three background
workers, whose only exit is their `case <-e.shutdown: return` select arm
(engine.go `statsCollector`, `healthChecker`, `circuitBreakerMonitor`). -/

/-- The receivers on the engine's shutdown channel. -/
inductive ShutdownConsumer where
  | startLoop
  | statsCollector
  | healthChecker
  | cbMonitor
deriving DecidableEq, Repr

/-- Channel events: a signal delivery (send) or a successful receive by one
consumer. -/
inductive ChanEvent where
  | send
  | recv (c : ShutdownConsumer)
deriving DecidableEq, Repr

/-- Whether an event is a receive. -/
def ChanEvent.isRecv : ChanEvent → Bool
  | ChanEvent.send => false
  | ChanEvent.recv _ => true

/-- Signal deliveries in a trace. -/
def sendCount (tr : List ChanEvent) : Nat :=
  (tr.filter (fun e => !e.isRecv)).length

/-- Successful receives in a trace. -/
def recvCount (tr : List ChanEvent) : Nat :=
  (tr.filter ChanEvent.isRecv).length

/-- Buffer evolution of an unclosed Go channel: a send buffers one value, a
successful receive consumes one; a receive from an empty unclosed channel
cannot complete (`none`). -/
def chanRun (buf : Nat) : List ChanEvent → Option Nat
  | [] => some buf
  | ChanEvent.send :: rest => chanRun (buf + 1) rest
  | ChanEvent.recv _ :: rest =>
    match buf with
    | 0 => none
    | b + 1 => chanRun b rest

/-- A trace the engine's shutdown channel can actually exhibit: every
receive finds a buffered value (the channel starts empty and is never
closed). -/
def validTrace (tr : List ChanEvent) : Prop :=
  (chanRun 0 tr).isSome

/-- A worker (or the Start loop) observed shutdown exactly when it completed
a receive on the channel — the only way any of them exits its loop. -/
def observedShutdown (tr : List ChanEvent) (c : ShutdownConsumer) : Prop :=
  ChanEvent.recv c ∈ tr

/-! ## Helper lemmas -/

/-- A route returned by `FindByPath` is enabled: the query's `WHERE` clause
includes `enabled = true`. -/
theorem findByPath_enabled {db : List Route} {p m : String} {rt : Route}
    (h : findByPath db p m = some rt) : rt.enabled = true := by
  have h2 := List.find?_some h
  simp only [Bool.and_eq_true, decide_eq_true_eq] at h2
  exact h2.2

/-- A route returned by `FindByPath` matches the queried path and method. -/
theorem findByPath_matches {db : List Route} {p m : String} {rt : Route}
    (h : findByPath db p m = some rt) : rt.path = p ∧ rt.method = m := by
  have h2 := List.find?_some h
  simp only [Bool.and_eq_true, decide_eq_true_eq] at h2
  exact h2.1

/-- A route returned by `FindByPath` is a row of the table. -/
theorem findByPath_mem {db : List Route} {p m : String} {rt : Route}
    (h : findByPath db p m = some rt) : rt ∈ db :=
  List.mem_of_find?_eq_some h

/-- Deleting a key removes its binding. -/
theorem lookupKey_removeKey_self {α : Type} (l : List (String × Item α))
    (k : String) : lookupKey (removeKey l k) k = none := by
  induction l with
  | nil => rfl
  | cons kv rest ih =>
    by_cases h : kv.1 = k
    · simpa [removeKey, h] using ih
    · simpa [removeKey, lookupKey, h] using ih

/-- Deleting some key cannot create a binding for another. -/
theorem lookupKey_removeKey_none {α : Type} {l : List (String × Item α)}
    {k : String} (k' : String) (h : lookupKey l k = none) :
    lookupKey (removeKey l k') k = none := by
  induction l with
  | nil => rfl
  | cons kv rest ih =>
    simp only [lookupKey] at h
    by_cases hk : kv.1 = k
    · simp [hk] at h
    · simp only [hk, if_false] at h
      by_cases hk' : kv.1 = k'
      · simpa [removeKey, hk'] using ih h
      · simpa [removeKey, lookupKey, hk, hk'] using ih h

/-- Writing a client's slice makes it the one `Allow` reads back. -/
theorem lookupClient_setClient_self (l : List (String × List Int))
    (c : String) (ts : List Int) :
    lookupClient (setClient l c ts) c = some ts := by
  induction l with
  | nil => simp [setClient, lookupClient]
  | cons kv rest ih =>
    by_cases h : kv.1 = c
    · simp [setClient, lookupClient, h]
    · simp [setClient, lookupClient, h, ih]

/-! ## Claim C8 — forwarded headers -/

/-- C8: For every proxied request, the outbound `X-Forwarded-For` equals the
inbound remote address, `X-Forwarded-Proto` is `"https"` iff the inbound
connection used TLS (else `"http"`), `X-Forwarded-Host` equals the inbound
`Host`, any pre-existing values of those three headers are overwritten
(the equalities hold whatever `r.headers` held for them), and every other
inbound header is passed through verbatim. -/
theorem forwarded_headers_correct (r : InboundRequest) (k : String)
    (hk1 : k ≠ "X-Forwarded-For") (hk2 : k ≠ "X-Forwarded-Proto")
    (hk3 : k ≠ "X-Forwarded-Host") :
    forwardHeaders r "X-Forwarded-For" = [r.remoteAddr] ∧
    forwardHeaders r "X-Forwarded-Proto" = [if r.tls then "https" else "http"] ∧
    (forwardHeaders r "X-Forwarded-Proto" = ["https"] ↔ r.tls = true) ∧
    forwardHeaders r "X-Forwarded-Host" = [r.host] ∧
    forwardHeaders r k = r.headers k := by
  cases hr : r.tls <;>
    simp [forwardHeaders, Headers.set, hr, hk1, hk2, hk3]

/-- Concrete instance of `forwarded_headers_correct`: a TLS request from
`203.0.113.9:4242` for host `example.org` with an inbound `Accept` header
and a stale inbound `X-Forwarded-For`. -/
theorem forwarded_headers_correct_witness :
    forwardHeaders
      ⟨"GET", "/api/users", "203.0.113.9:4242", "example.org", true, "curl",
        fun k => if k = "Accept" then ["text/html"]
                 else if k = "X-Forwarded-For" then ["10.0.0.1"] else []⟩
      "X-Forwarded-For" = ["203.0.113.9:4242"] ∧
    forwardHeaders
      ⟨"GET", "/api/users", "203.0.113.9:4242", "example.org", true, "curl",
        fun k => if k = "Accept" then ["text/html"]
                 else if k = "X-Forwarded-For" then ["10.0.0.1"] else []⟩
      "X-Forwarded-Proto" = ["https"] ∧
    forwardHeaders
      ⟨"GET", "/api/users", "203.0.113.9:4242", "example.org", true, "curl",
        fun k => if k = "Accept" then ["text/html"]
                 else if k = "X-Forwarded-For" then ["10.0.0.1"] else []⟩
      "Accept" = ["text/html"] := by
  have h := forwarded_headers_correct
    ⟨"GET", "/api/users", "203.0.113.9:4242", "example.org", true, "curl",
      fun k => if k = "Accept" then ["text/html"]
               else if k = "X-Forwarded-For" then ["10.0.0.1"] else []⟩
    "Accept" (by decide) (by decide) (by decide)
  refine ⟨h.1, ?_, ?_⟩
  · simpa using h.2.1
  · simpa using h.2.2.2.2

/-! ## Claim C10 — rate limiter fast path for unknown clients -/

/-- C10: A client with no entry in the limiter's table is admitted
unconditionally — whatever the configured limit, including `0` — and the
current timestamp is recorded as its slice. -/
theorem allow_fresh_client (rl : RateLimiter) (clientIP : String) (now : Int)
    (h : lookupClient rl.requests clientIP = none) :
    (rl.allow clientIP now).1 = true ∧
    lookupClient ((rl.allow clientIP now).2.requests) clientIP = some [now] := by
  simp [RateLimiter.allow, h, lookupClient_setClient_self]

/-- Concrete instance of `allow_fresh_client` with `limit = 0`: the first
request from an unknown client is still admitted. -/
theorem allow_fresh_client_witness :
    ((RateLimiter.mk [] 0 1000).allow "10.0.0.1:555" 42).1 = true ∧
    lookupClient (((RateLimiter.mk [] 0 1000).allow "10.0.0.1:555" 42).2.requests)
      "10.0.0.1:555" = some [42] :=
  allow_fresh_client ⟨[], 0, 1000⟩ "10.0.0.1:555" 42 rfl

/-! ## Claim C2 — cache invalidation on route mutations -/

/-- C2 counterexample: with the per-id key `route:7` cached, a successful
create of route 7 leaves that binding in place — `RouteHandler.Create`
deletes only `routes:all`, so the claim's "both keys are deleted" fails for
the create operation. -/
theorem create_missing_per_id_delete :
    lookupKey
      ((createInvalidate (Cache.mk [("route:7", ⟨0, 100⟩)] 10 : Cache Nat) 7).items)
      "route:7" = some ⟨0, 100⟩ ∧
    ¬ (lookupKey
        ((createInvalidate (Cache.mk [("route:7", ⟨(0 : Nat), 100⟩)] 10) 7).items)
        "route:7" = none) := by
  constructor
  · rfl
  · intro h
    simp [createInvalidate, Cache.delete, removeKey, lookupKey] at h

/-- C2 (amended): on success, update and delete remove both `routes:all`
and the per-id key `route:<id>` before returning; create removes only
`routes:all` — its whole cache effect is that one removal, so a
pre-existing per-id binding survives a create. -/
theorem route_mutation_invalidation_amended {α : Type} (c : Cache α) (id : Nat) :
    lookupKey (updateInvalidate c id).items "routes:all" = none ∧
    lookupKey (updateInvalidate c id).items ("route:" ++ toString id) = none ∧
    lookupKey (deleteInvalidate c id).items "routes:all" = none ∧
    lookupKey (deleteInvalidate c id).items ("route:" ++ toString id) = none ∧
    (createInvalidate c id).items = removeKey c.items "routes:all" ∧
    lookupKey (createInvalidate c id).items "routes:all" = none := by
  exact ⟨lookupKey_removeKey_none _ (lookupKey_removeKey_self _ _),
    lookupKey_removeKey_self _ _,
    lookupKey_removeKey_none _ (lookupKey_removeKey_self _ _),
    lookupKey_removeKey_self _ _, rfl,
    lookupKey_removeKey_self _ _⟩

/-! ## Claim C3 — route resolution does not use the cache -/

/-- C3 counterexample: on a request whose route is found, the code leaves
the cache without the `route:<path>:<method>` entry the claim says gets
written (the handler never touches the cache), while the spec's resolution
protocol (`specResolveRoute`) would have cached the route. -/
theorem proxy_resolution_counterexample :
    ((ProxyHandler.handle (Cache.mk [] 100 : Cache Route)
        [⟨1, "/api/users", "http://b/u", "GET", true, 0, 30⟩]
        ⟨"GET", "/api/users", "1.2.3.4:9", "h", false, "ua", fun _ => []⟩
        (ProxyOutcome.ok 200)).cache.get "route:/api/users:GET" 0 = none) ∧
    ((specResolveRoute (Cache.mk [] 100)
        [⟨1, "/api/users", "http://b/u", "GET", true, 0, 30⟩]
        ⟨"GET", "/api/users", "1.2.3.4:9", "h", false, "ua", fun _ => []⟩ 0).2.get
        "route:/api/users:GET" 0
      = some ⟨1, "/api/users", "http://b/u", "GET", true, 0, 30⟩) := by
  exact ⟨rfl, rfl⟩

/-- C3 (amended): the lifecycle handler resolves every request by calling
the store's `FindByPath` directly — the cache is returned unchanged (no
lookup result could influence the outcome and nothing is cached), and the
route used (as witnessed by the submitted log record) is exactly the
store's answer. -/
theorem proxy_resolution_no_cache {α : Type} (cache : Cache α) (db : List Route)
    (req : InboundRequest) (outcome : ProxyOutcome) :
    (ProxyHandler.handle cache db req outcome).cache = cache ∧
    (ProxyHandler.handle cache db req outcome).submitted.map (fun e => e.routeID)
      = [(findByPath db req.path req.method).map (fun rt => rt.id)] := by
  unfold ProxyHandler.handle
  cases h : findByPath db req.path req.method with
  | none => simp
  | some rt =>
    have he := findByPath_enabled h
    cases outcome <;> simp [he]

/-! ## Claim C4 — access-log record contents -/

/-- C4 counterexample: an enabled route whose backend replies 500 — the
forwarder copies status 500 to the client, but the submitted log record
carries the constant `http.StatusOK`: the logged status is 200 while the
client received 500. -/
theorem log_status_counterexample :
    ((ProxyHandler.handle (Cache.mk [] 100 : Cache Nat)
        [⟨1, "/api/users", "http://b/u", "GET", true, 0, 30⟩]
        ⟨"GET", "/api/users", "1.2.3.4:9", "h", false, "ua", fun _ => []⟩
        (ProxyOutcome.ok 500)).clientStatus = 500) ∧
    ((ProxyHandler.handle (Cache.mk [] 100 : Cache Nat)
        [⟨1, "/api/users", "http://b/u", "GET", true, 0, 30⟩]
        ⟨"GET", "/api/users", "1.2.3.4:9", "h", false, "ua", fun _ => []⟩
        (ProxyOutcome.ok 500)).submitted.map (fun e => e.statusCode) = [200]) ∧
    (500 : Nat) ≠ 200 := by
  exact ⟨rfl, rfl, by decide⟩

/-- C4 (amended): for every request reaching the handler exactly one log
record is submitted; its method/path/client-ip/user-agent mirror the
request; its `route_id` is null iff no route matched; its status is 404
when no route matched, 503 when the breaker-wrapped forward failed, and the
constant 200 on any successful forward — regardless of the upstream status
actually sent to the client; the row is present exactly when the
asynchronous write succeeds, and the response does not depend on that
write's outcome. -/
theorem request_log_amended {α : Type} (cache : Cache α) (db : List Route)
    (req : InboundRequest) (outcome : ProxyOutcome) :
    (ProxyHandler.handle cache db req outcome).submitted =
      [⟨(findByPath db req.path req.method).map (fun rt => rt.id),
        req.method, req.path,
        (match findByPath db req.path req.method, outcome with
         | none, _ => 404
         | some _, ProxyOutcome.ok _ => 200
         | some _, ProxyOutcome.fail => 503),
        req.remoteAddr, req.userAgent⟩] ∧
    (ProxyHandler.handle cache db req outcome).clientStatus =
      (match findByPath db req.path req.method, outcome with
       | none, _ => 404
       | some _, ProxyOutcome.ok up => up
       | some _, ProxyOutcome.fail => 503) ∧
    ((findByPath db req.path req.method).map (fun rt => rt.id) = none
      ↔ findByPath db req.path req.method = none) ∧
    persistedLogs (ProxyHandler.handle cache db req outcome) true
      = (ProxyHandler.handle cache db req outcome).submitted ∧
    persistedLogs (ProxyHandler.handle cache db req outcome) false = [] := by
  unfold ProxyHandler.handle
  cases h : findByPath db req.path req.method with
  | none => cases outcome <;> simp [persistedLogs]
  | some rt =>
    have he := findByPath_enabled h
    cases outcome <;> simp [he, persistedLogs]

/-! ## Claim C1 — disabled routes -/

/-- C1 (what the code does at the claim's scenario): because `FindByPath`
filters `enabled = true`, a request that matches only a disabled persisted
route is answered 404 "Route not found" and logged with a null route id —
not the claimed 503 "Route is disabled" with the route's id.  The
handler's disabled branch (handlers.go:398-403) is unreachable. -/
theorem disabledRoute_yields_404 {α : Type} (cache : Cache α) (db : List Route)
    (req : InboundRequest) (outcome : ProxyOutcome)
    (_hmatch : ∃ rt, rt ∈ db ∧ rt.path = req.path ∧ rt.method = req.method)
    (hdis : ∀ rt, rt ∈ db → rt.path = req.path → rt.method = req.method →
      rt.enabled = false) :
    (ProxyHandler.handle cache db req outcome).clientStatus = 404 ∧
    (ProxyHandler.handle cache db req outcome).clientMsg = some "Route not found" ∧
    (ProxyHandler.handle cache db req outcome).submitted.map
      (fun e => (e.routeID, e.statusCode)) = [(none, 404)] := by
  have hnone : findByPath db req.path req.method = none := by
    cases h : findByPath db req.path req.method with
    | none => rfl
    | some rt =>
      have he := findByPath_enabled h
      have hm := findByPath_matches h
      have hd := hdis rt (findByPath_mem h) hm.1 hm.2
      rw [he] at hd
      exact absurd hd (by decide)
  unfold ProxyHandler.handle
  rw [hnone]
  exact ⟨rfl, rfl, rfl⟩

/-- Concrete instance of `disabledRoute_yields_404`: the spec's scenario —
route `/api/users` `GET` persisted but disabled, a `GET /api/users`
request arrives. -/
theorem disabledRoute_yields_404_witness :
    (ProxyHandler.handle (Cache.mk [] 100 : Cache Nat)
      [⟨1, "/api/users", "http://b/u", "GET", false, 0, 30⟩]
      ⟨"GET", "/api/users", "9.9.9.9:1", "h", false, "ua", fun _ => []⟩
      (ProxyOutcome.ok 200)).clientStatus = 404 ∧
    (ProxyHandler.handle (Cache.mk [] 100 : Cache Nat)
      [⟨1, "/api/users", "http://b/u", "GET", false, 0, 30⟩]
      ⟨"GET", "/api/users", "9.9.9.9:1", "h", false, "ua", fun _ => []⟩
      (ProxyOutcome.ok 200)).clientMsg = some "Route not found" ∧
    (ProxyHandler.handle (Cache.mk [] 100 : Cache Nat)
      [⟨1, "/api/users", "http://b/u", "GET", false, 0, 30⟩]
      ⟨"GET", "/api/users", "9.9.9.9:1", "h", false, "ua", fun _ => []⟩
      (ProxyOutcome.ok 200)).submitted.map
      (fun e => (e.routeID, e.statusCode)) = [(none, 404)] :=
  disabledRoute_yields_404 _ _ _ _
    ⟨⟨1, "/api/users", "http://b/u", "GET", false, 0, 30⟩, by decide⟩
    (by decide)

/-! ## Claim C5 — circuit breaker trip condition and Open behaviour -/

/-- C5 counterexample: three requests in the current interval with two
failures — a failure fraction of 2/3 ≥ 0.6 — yet the breaker is still
Closed and the next `execute` still invokes the protected function: the
trip condition is only evaluated when a failure is recorded, and the third
request succeeded. -/
theorem breaker_no_trip_on_success :
    ((Breaker.new 0).run [(1, false), (1, false), (1, true)]).counts.requests = 3 ∧
    3 * ((Breaker.new 0).run [(1, false), (1, false), (1, true)]).counts.requests ≤
      5 * ((Breaker.new 0).run [(1, false), (1, false), (1, true)]).counts.totalFailures ∧
    ((Breaker.new 0).run [(1, false), (1, false), (1, true)]).state = CBState.closed ∧
    (((Breaker.new 0).run [(1, false), (1, false), (1, true)]).execute 1 true).invoked
      = true := by
  decide

/-- C5 (amended): (a) when `execute` records a **failure** in Closed state
(with the current 10-second interval not yet rolled over) and the counts
then satisfy `requests ≥ 3` and `failures/requests ≥ 0.6`, the breaker
transitions to Open — the protected function having been invoked for that
call; (b) while Open and before the Open timeout expires, `execute`
returns the open-breaker error immediately, does not invoke the protected
function, and leaves the breaker unchanged. -/
theorem breaker_trip_and_open_amended :
    (∀ (b : Breaker) (now : Int), b.state = CBState.closed →
      ¬ (b.expiry ≠ 0 ∧ b.expiry < now) →
      readyToTrip ((b.counts.onRequest).onFailure) = true →
      ((b.execute now false).breaker.state = CBState.opened ∧
        (b.execute now false).invoked = true)) ∧
    (∀ (b : Breaker) (now : Int) (outcome : Bool), b.state = CBState.opened →
      ¬ (b.expiry < now) →
      b.execute now outcome = ⟨b, false, some CBErr.openState⟩) := by
  constructor
  · intro b now hclosed hexp htrip
    obtain ⟨st, cnts, gen, exp⟩ := b
    simp only [Breaker.state] at hclosed
    subst hclosed
    simp only [Breaker.expiry, Breaker.counts] at hexp htrip
    simp [Breaker.execute, Breaker.beforeRequest, Breaker.currentState,
      Breaker.afterRequest, Breaker.onFailure, Breaker.setState,
      Breaker.toNewGeneration, hexp, htrip]
  · intro b now outcome hopen hexp
    obtain ⟨st, cnts, gen, exp⟩ := b
    simp only [Breaker.state] at hopen
    subst hopen
    simp only [Breaker.expiry] at hexp
    simp [Breaker.execute, Breaker.beforeRequest, Breaker.currentState, hexp]

/-- Concrete instance of `breaker_trip_and_open_amended`: a Closed breaker
with counts (2 requests, 2 failures) trips Open on a third, failing call;
a tripped breaker rejects without invoking and is unchanged. -/
theorem breaker_trip_and_open_amended_witness :
    (((Breaker.mk CBState.closed ⟨2, 0, 2, 0, 2⟩ 1 10).execute 1 false).breaker.state
       = CBState.opened ∧
     ((Breaker.mk CBState.closed ⟨2, 0, 2, 0, 2⟩ 1 10).execute 1 false).invoked
       = true) ∧
    (Breaker.mk CBState.opened ⟨0, 0, 0, 0, 0⟩ 2 61).execute 5 true
      = ⟨⟨CBState.opened, ⟨0, 0, 0, 0, 0⟩, 2, 61⟩, false, some CBErr.openState⟩ :=
  ⟨breaker_trip_and_open_amended.1 ⟨CBState.closed, ⟨2, 0, 2, 0, 2⟩, 1, 10⟩ 1 rfl
      (by decide) (by decide),
    breaker_trip_and_open_amended.2 ⟨CBState.opened, ⟨0, 0, 0, 0, 0⟩, 2, 61⟩ 5 true rfl
      (by decide)⟩

/-! ## Claim C9 — shutdown channel observability -/

/-- In any trace an unclosed channel admits, completed receives never
outnumber the values made available (initial buffer plus sends). -/
theorem chanRun_recv_le (tr : List ChanEvent) :
    ∀ (buf b : Nat), chanRun buf tr = some b →
      recvCount tr ≤ buf + sendCount tr := by
  induction tr with
  | nil => intro buf b _h; simp [recvCount]
  | cons e rest ih =>
    intro buf b h
    cases e with
    | send =>
      have hr := ih (buf + 1) b (by simpa [chanRun] using h)
      simp [recvCount, sendCount, ChanEvent.isRecv] at hr ⊢
      all_goals omega
    | recv c =>
      cases buf with
      | zero => simp [chanRun] at h
      | succ b' =>
        have hr := ih b' b (by simpa [chanRun] using h)
        simp [recvCount, sendCount, ChanEvent.isRecv] at hr ⊢
        all_goals omega

/-- A list holding two different elements has length at least two. -/
theorem two_le_length_of_mem_ne {β : Type} {a b : β} (hne : a ≠ b) :
    ∀ (l : List β), a ∈ l → b ∈ l → 2 ≤ l.length := by
  intro l
  induction l with
  | nil => intro ha _hb; simp at ha
  | cons c t ih =>
    intro ha hb
    rcases List.mem_cons.mp ha with rfl | ha'
    · rcases List.mem_cons.mp hb with rfl | hb'
      · exact absurd rfl hne
      · have := List.length_pos_of_mem hb'
        simp only [List.length_cons]
        omega
    · rcases List.mem_cons.mp hb with rfl | hb'
      · have := List.length_pos_of_mem ha'
        simp only [List.length_cons]
        omega
      · have := ih ha' hb'
        simp only [List.length_cons]
        omega

/-- C9 (what the code does): the engine's shutdown channel buffers one
value per delivered signal and is never closed, so each observation
consumes the value.  After a single signal, at most one of the channel's
consumers can ever complete a receive — the three background workers
cannot all observe shutdown, contradicting the claim that every worker
observes the channel and exits. -/
theorem shutdown_not_all_workers_observe (tr : List ChanEvent)
    (hvalid : validTrace tr) (hone : sendCount tr = 1) :
    ¬ (observedShutdown tr ShutdownConsumer.statsCollector ∧
       observedShutdown tr ShutdownConsumer.healthChecker ∧
       observedShutdown tr ShutdownConsumer.cbMonitor) := by
  rintro ⟨h1, h2, _h3⟩
  unfold validTrace at hvalid
  obtain ⟨b, hb⟩ := Option.isSome_iff_exists.mp hvalid
  have hle := chanRun_recv_le tr 0 b hb
  rw [hone] at hle
  have m1 : ChanEvent.recv ShutdownConsumer.statsCollector ∈
      tr.filter ChanEvent.isRecv :=
    List.mem_filter.mpr ⟨h1, rfl⟩
  have m2 : ChanEvent.recv ShutdownConsumer.healthChecker ∈
      tr.filter ChanEvent.isRecv :=
    List.mem_filter.mpr ⟨h2, rfl⟩
  have h2le := two_le_length_of_mem_ne (by decide) _ m1 m2
  simp only [recvCount] at hle
  omega

/-- Concrete instance of `shutdown_not_all_workers_observe`: one SIGTERM is
delivered and the `Start` loop's `<-e.shutdown` consumes it (the trace the
running engine actually produces); no worker can then observe shutdown. -/
theorem shutdown_not_all_workers_observe_witness :
    ¬ (observedShutdown [ChanEvent.send, ChanEvent.recv ShutdownConsumer.startLoop]
         ShutdownConsumer.statsCollector ∧
       observedShutdown [ChanEvent.send, ChanEvent.recv ShutdownConsumer.startLoop]
         ShutdownConsumer.healthChecker ∧
       observedShutdown [ChanEvent.send, ChanEvent.recv ShutdownConsumer.startLoop]
         ShutdownConsumer.cbMonitor) :=
  shutdown_not_all_workers_observe
    [ChanEvent.send, ChanEvent.recv ShutdownConsumer.startLoop]
    (by unfold validTrace; decide) (by decide)

/-! ## Claim C6 — rate limiter admission bound and pruning -/

/-- C6 counterexample: with `limit = 0` a single request from an unknown
client is admitted (the no-entry fast path skips the limit check), so the
number of `allow = true` outcomes in the window exceeds the configured
limit. -/
theorem rate_limit_zero_counterexample :
    ((runAllow (RateLimiter.mk [] 0 1000) "c" [5]).1 : Int) = 1 ∧
    ¬ (((runAllow (RateLimiter.mk [] 0 1000) "c" [5]).1 : Int) ≤ (0 : Int)) := by
  decide

/-- Inductive step for the admission bound: once the client's slice is
tracked, every admission grows it by one and no prune can fire inside a
single window, so admissions plus the current slice length stay within the
limit. -/
theorem runAllow_bound_aux (client : String) (rest : List Int) :
    ∀ (rl : RateLimiter) (seq : List Int),
      (∀ a ∈ seq ++ rest, ∀ b ∈ seq ++ rest, a - b < rl.window) →
      lookupClient rl.requests client = some seq →
      ((seq.length : Int) ≤ rl.limit) →
      ((runAllow rl client rest).1 : Int) + seq.length ≤ rl.limit := by
  induction rest with
  | nil =>
    intro rl seq _hpair _hlook hlen
    simpa [runAllow] using hlen
  | cons now rest ih =>
    intro rl seq hpair hlook hlen
    have hval : seq.filter (fun t => now - rl.window < t) = seq := by
      rw [List.filter_eq_self]
      intro t ht
      have h1 := hpair now (by simp) t (by simp [ht])
      simp only [decide_eq_true_eq]
      omega
    have hpair' : ∀ a ∈ seq ++ rest, ∀ b ∈ seq ++ rest, a - b < rl.window := by
      intro a ha b hb
      refine hpair a ?_ b ?_ <;>
        · simp only [List.mem_append, List.mem_cons] at *
          tauto
    by_cases hfull : ((seq.filter (fun t => now - rl.window < t)).length : Int) ≥ rl.limit
    · -- denied: the pruned slice is written back unchanged
      have hstep : rl.allow client now =
          (false, { rl with requests := setClient rl.requests client seq }) := by
        simp [RateLimiter.allow, hlook, hval] at hfull ⊢
        simp [hval, hfull]
      have hr := ih { rl with requests := setClient rl.requests client seq } seq
        hpair' (lookupClient_setClient_self _ _ _) hlen
      simp only [runAllow, hstep] at *
      simpa using hr
    · -- admitted: `now` is appended
      have hstep : rl.allow client now =
          (true, { rl with
            requests := setClient rl.requests client (seq ++ [now]) }) := by
        simp [RateLimiter.allow, hlook, hval] at hfull ⊢
        simp [hval, hfull]
      have hpair2 : ∀ a ∈ (seq ++ [now]) ++ rest, ∀ b ∈ (seq ++ [now]) ++ rest,
          a - b < rl.window := by
        intro a ha b hb
        refine hpair a ?_ b ?_ <;>
          · simp only [List.mem_append, List.mem_cons, List.mem_singleton] at *
            tauto
      have hlen2 : (((seq ++ [now]).length : Int)) ≤ rl.limit := by
        rw [hval] at hfull
        simp only [List.length_append, List.length_singleton]
        push_cast
        omega
      have hr := ih { rl with requests := setClient rl.requests client (seq ++ [now]) }
        (seq ++ [now]) hpair2 (lookupClient_setClient_self _ _ _) hlen2
      simp only [runAllow, hstep] at *
      simp only [List.length_append, List.length_singleton] at hr
      push_cast at hr ⊢
      omega

/-- C6 (amended): (a) provided the configured limit is at least 1, any
sequence of `Allow` calls from one client whose timestamps all lie within
one window admits at most `limit` requests (for `limit = 0` the no-entry
fast path admits one request, as the counterexample shows); (b) after
every admission decision, every timestamp stored for the decided client
lies strictly after `now - window` — entries at or before the cutoff are
pruned. -/
theorem rate_limiter_amended :
    (∀ (limit window : Int) (client : String) (ts : List Int),
      0 < window → 1 ≤ limit →
      (∀ a ∈ ts, ∀ b ∈ ts, a - b < window) →
      ((runAllow (RateLimiter.mk [] limit window) client ts).1 : Int) ≤ limit) ∧
    (∀ (rl : RateLimiter) (client : String) (now : Int) (seq : List Int),
      0 < rl.window →
      lookupClient ((rl.allow client now).2.requests) client = some seq →
      ∀ t ∈ seq, now - rl.window < t) := by
  constructor
  · intro limit window client ts hwin hlim hpair
    cases ts with
    | nil =>
      simp only [runAllow, Nat.cast_zero]
      omega
    | cons now rest =>
      have hstep : (RateLimiter.mk [] limit window).allow client now =
          (true, RateLimiter.mk [(client, [now])] limit window) := by
        simp [RateLimiter.allow, lookupClient, setClient]
      have hr := runAllow_bound_aux client rest
        (RateLimiter.mk [(client, [now])] limit window) [now]
        (by
          intro a ha b hb
          have ha' : a ∈ now :: rest := by simpa using ha
          have hb' : b ∈ now :: rest := by simpa using hb
          exact hpair a ha' b hb')
        (by simp [lookupClient]) (by simpa using hlim)
      simp only [runAllow, hstep, List.length_singleton] at hr ⊢
      simp only [if_pos] at hr ⊢
      push_cast at hr ⊢
      omega
  · intro rl client now seq hwin hlook t ht
    unfold RateLimiter.allow at hlook
    cases hl : lookupClient rl.requests client with
    | none =>
      rw [hl] at hlook
      simp only [lookupClient_setClient_self] at hlook
      obtain rfl : seq = [now] := by injection hlook with h; exact h.symm
      simp only [List.mem_singleton] at ht
      subst ht
      omega
    | some times =>
      rw [hl] at hlook
      by_cases hfull :
          ((times.filter (fun t => now - rl.window < t)).length : Int) ≥ rl.limit
      · simp only [hfull, ge_iff_le, if_pos, lookupClient_setClient_self] at hlook
        have hseq : seq = times.filter (fun t => now - rl.window < t) := by
          simp only [ge_iff_le] at hfull
          simp [hfull] at hlook
          exact hlook.symm
        subst hseq
        have := List.of_mem_filter ht
        simpa using this
      · have hseq : seq = times.filter (fun t => now - rl.window < t) ++ [now] := by
          simp only [ge_iff_le] at hfull
          simp [hfull, lookupClient_setClient_self] at hlook
          exact hlook.symm
        subst hseq
        rcases List.mem_append.mp ht with hm | hm
        · have := List.of_mem_filter hm
          simpa using this
        · simp only [List.mem_singleton] at hm
          subst hm
          omega

/-- Concrete instance of `rate_limiter_amended`: three same-window requests
against `limit = 2` admit at most two, and after a decision at `now = 600`
with window 1000 the stored slice holds only timestamps after `-400` (the
old `-900` entry was pruned). -/
theorem rate_limiter_amended_witness :
    ((runAllow (RateLimiter.mk [] 2 1000) "10.0.0.7:1" [5, 6, 7]).1 : Int) ≤ 2 ∧
    (∀ t ∈ [(500 : Int), 600],
      (600 : Int) - (RateLimiter.mk [("c", [-900, 500])] 3 1000).window < t) := by
  constructor
  · exact rate_limiter_amended.1 2 1000 "10.0.0.7:1" [5, 6, 7]
      (by decide) (by decide) (by decide)
  · exact rate_limiter_amended.2 (RateLimiter.mk [("c", [-900, 500])] 3 1000)
      "c" 600 [500, 600] (by decide) (by decide)

/-! ## Claim C7 — cache size bound and eviction policy -/

/-- The eviction scan never increases its tracked minimum. -/
theorem oldestScan_snd_le_acc {α : Type} :
    ∀ (l : List (String × Item α)) (acc : String × Int),
      (oldestScan l acc).2 ≤ acc.2 := by
  intro l
  induction l with
  | nil => intro acc; exact le_refl _
  | cons kv rest ih =>
    intro acc
    simp only [oldestScan, List.foldl_cons]
    by_cases h : kv.2.expiration < acc.2
    · simp only [if_pos h]
      exact le_trans (ih _) (le_of_lt h)
    · simp only [if_neg h]
      exact ih acc

/-- The eviction scan's tracked minimum is below every scanned
expiration. -/
theorem oldestScan_snd_le_mem {α : Type} :
    ∀ (l : List (String × Item α)) (acc : String × Int) (kv : String × Item α),
      kv ∈ l → (oldestScan l acc).2 ≤ kv.2.expiration := by
  intro l
  induction l with
  | nil => intro acc kv h; simp at h
  | cons kv0 rest ih =>
    intro acc kv h
    simp only [oldestScan, List.foldl_cons]
    rcases List.mem_cons.mp h with rfl | hmem
    · by_cases h0 : kv.2.expiration < acc.2
      · simpa only [if_pos h0] using oldestScan_snd_le_acc rest _
      · calc (oldestScan rest (if kv.2.expiration < acc.2 then
                (kv.1, kv.2.expiration) else acc)).2
            ≤ (if kv.2.expiration < acc.2 then
                (kv.1, kv.2.expiration) else acc).2 := oldestScan_snd_le_acc rest _
          _ ≤ kv.2.expiration := by simp only [if_neg h0]; omega
    · exact ih _ kv hmem

/-- The eviction scan result is the start accumulator or one of the
scanned entries. -/
theorem oldestScan_eq_acc_or_mem {α : Type} :
    ∀ (l : List (String × Item α)) (acc : String × Int),
      oldestScan l acc = acc ∨
        ∃ kv, kv ∈ l ∧ oldestScan l acc = (kv.1, kv.2.expiration) := by
  intro l
  induction l with
  | nil => intro acc; exact Or.inl rfl
  | cons kv0 rest ih =>
    intro acc
    simp only [oldestScan, List.foldl_cons]
    by_cases h : kv0.2.expiration < acc.2
    · simp only [if_pos h]
      rcases ih (kv0.1, kv0.2.expiration) with heq | ⟨kv, hm, heq⟩
      · exact Or.inr ⟨kv0, List.mem_cons_self _ _, heq⟩
      · exact Or.inr ⟨kv, List.mem_cons_of_mem _ hm, heq⟩
    · simp only [if_neg h]
      rcases ih acc with heq | ⟨kv, hm, heq⟩
      · exact Or.inl heq
      · exact Or.inr ⟨kv, List.mem_cons_of_mem _ hm, heq⟩

/-- `removeKey` drops a head whose key matches. -/
theorem removeKey_cons_eq {α : Type} {kv : String × Item α}
    {rest : List (String × Item α)} {k : String} (h : kv.1 = k) :
    removeKey (kv :: rest) k = removeKey rest k := by
  simp [removeKey, List.filter_cons, h]

/-- `removeKey` keeps a head whose key differs. -/
theorem removeKey_cons_ne {α : Type} {kv : String × Item α}
    {rest : List (String × Item α)} {k : String} (h : kv.1 ≠ k) :
    removeKey (kv :: rest) k = kv :: removeKey rest k := by
  simp [removeKey, List.filter_cons, h]

/-- A key absent from the key list is untouched by `removeKey`. -/
theorem removeKey_of_notMem {α : Type} :
    ∀ (l : List (String × Item α)) (k : String), k ∉ l.map Prod.fst →
      removeKey l k = l := by
  intro l
  induction l with
  | nil => intro k _h; rfl
  | cons kv rest ih =>
    intro k hk
    simp only [List.map_cons, List.mem_cons, not_or] at hk
    rw [removeKey_cons_ne (fun hc => hk.1 hc.symm), ih k hk.2]

/-- Removing a present key from a distinct-key map drops exactly one
entry. -/
theorem removeKey_length {α : Type} :
    ∀ (l : List (String × Item α)) (k : String), keysDistinct l →
      k ∈ l.map Prod.fst → (removeKey l k).length + 1 = l.length := by
  intro l
  induction l with
  | nil => intro k _hd hm; simp at hm
  | cons kv rest ih =>
    intro k hd hm
    have hd' : kv.1 ∉ rest.map Prod.fst ∧ keysDistinct rest := by
      simpa [keysDistinct, List.nodup_cons] using hd
    by_cases h : kv.1 = k
    · have hrest : removeKey rest k = rest :=
        removeKey_of_notMem rest k (h ▸ hd'.1)
      rw [removeKey_cons_eq h, hrest]
      simp
    · have hm' : k ∈ rest.map Prod.fst := by
        simp only [List.map_cons] at hm
        rcases List.mem_cons.mp hm with heq | hmem
        · exact absurd heq.symm h
        · exact hmem
      have hr := ih k hd'.2 hm'
      rw [removeKey_cons_ne h]
      simp only [List.length_cons]
      omega

/-- Removing a key preserves key distinctness. -/
theorem keysDistinct_removeKey {α : Type} (l : List (String × Item α))
    (k : String) (hd : keysDistinct l) : keysDistinct (removeKey l k) :=
  ((List.filter_sublist l).map Prod.fst).nodup hd

/-- Entries after a removal were entries before. -/
theorem mem_removeKey {α : Type} {l : List (String × Item α)} {k : String}
    {kv : String × Item α} (h : kv ∈ removeKey l k) : kv ∈ l :=
  List.mem_of_mem_filter h

/-- Map assignment grows the item list by one exactly when the key was
absent. -/
theorem setKey_length {α : Type} :
    ∀ (l : List (String × Item α)) (k : String) (it : Item α),
      (setKey l k it).length =
        if k ∈ l.map Prod.fst then l.length else l.length + 1 := by
  intro l
  induction l with
  | nil => intro k it; simp [setKey]
  | cons kv rest ih =>
    intro k it
    by_cases h : kv.1 = k
    · simp [setKey, h]
    · have hne : ¬ k = kv.1 := fun hc => h hc.symm
      simp only [setKey, if_neg h, List.length_cons, ih, List.map_cons,
        List.mem_cons, hne, false_or]
      by_cases hm : k ∈ rest.map Prod.fst <;> simp [hm]

/-- The key list after a map assignment. -/
theorem setKey_keys {α : Type} :
    ∀ (l : List (String × Item α)) (k : String) (it : Item α),
      (setKey l k it).map Prod.fst =
        if k ∈ l.map Prod.fst then l.map Prod.fst else l.map Prod.fst ++ [k] := by
  intro l
  induction l with
  | nil => intro k it; simp [setKey]
  | cons kv rest ih =>
    intro k it
    by_cases h : kv.1 = k
    · simp [setKey, h]
    · have hne : ¬ k = kv.1 := fun hc => h hc.symm
      simp only [setKey, if_neg h, List.map_cons, ih, List.mem_cons, hne, false_or]
      by_cases hm : k ∈ rest.map Prod.fst <;> simp [hm]

/-- Map assignment preserves key distinctness. -/
theorem keysDistinct_setKey {α : Type} (l : List (String × Item α))
    (k : String) (it : Item α) (hd : keysDistinct l) :
    keysDistinct (setKey l k it) := by
  unfold keysDistinct at hd ⊢
  rw [setKey_keys]
  by_cases hm : k ∈ l.map Prod.fst
  · simpa [hm] using hd
  · simp only [hm, if_false]
    rw [List.nodup_append]
    exact ⟨hd, List.nodup_singleton _, by
      intro a ha hb
      simp only [List.mem_singleton] at hb
      exact hm (hb ▸ ha)⟩

/-- Entries after a map assignment: the new binding or an old entry. -/
theorem mem_setKey {α : Type} :
    ∀ (l : List (String × Item α)) (k : String) (it : Item α)
      (kv : String × Item α), kv ∈ setKey l k it → kv = (k, it) ∨ kv ∈ l := by
  intro l
  induction l with
  | nil =>
    intro k it kv h
    simp only [setKey, List.mem_singleton] at h
    exact Or.inl h
  | cons kv0 rest ih =>
    intro k it kv h
    by_cases h0 : kv0.1 = k
    · simp only [setKey, if_pos h0, List.mem_cons] at h
      rcases h with heq | hmem
      · exact Or.inl heq
      · exact Or.inr (List.mem_cons_of_mem _ hmem)
    · simp only [setKey, if_neg h0, List.mem_cons] at h
      rcases h with heq | hmem
      · exact Or.inr (heq ▸ List.mem_cons_self _ _)
      · rcases ih k it kv hmem with hnew | hold
        · exact Or.inl hnew
        · exact Or.inr (List.mem_cons_of_mem _ hold)

/-- What `evictOldest` does on a well-formed nonempty map: it removes an
entry whose expiration is minimal. -/
theorem evictOldest_spec {α : Type} {c : Cache α} (hne : c.items ≠ [])
    (hk : ∀ kv ∈ c.items, kv.1 ≠ "" ∧ kv.2.expiration < maxInt64)
    (hd : keysDistinct c.items) :
    ∃ kv, kv ∈ c.items ∧
      (∀ kv2 ∈ c.items, kv.2.expiration ≤ kv2.2.expiration) ∧
      (c.evictOldest).items = removeKey c.items kv.1 ∧
      (c.evictOldest).items.length + 1 = c.items.length ∧
      (c.evictOldest).maxSize = c.maxSize := by
  rcases oldestScan_eq_acc_or_mem c.items ("", maxInt64) with hacc | ⟨kv, hm, heq⟩
  · obtain ⟨kv0, hkv0⟩ := List.exists_mem_of_ne_nil c.items hne
    have h1 := oldestScan_snd_le_mem c.items ("", maxInt64) kv0 hkv0
    rw [hacc] at h1
    exact absurd (lt_of_le_of_lt h1 (hk kv0 hkv0).2) (lt_irrefl _)
  · refine ⟨kv, hm, ?_, ?_, ?_, ?_⟩
    · intro kv2 hm2
      have := oldestScan_snd_le_mem c.items ("", maxInt64) kv2 hm2
      rw [heq] at this
      exact this
    · simp only [Cache.evictOldest, heq]
      rw [if_pos (hk kv hm).1]
    · have hlen := removeKey_length c.items kv.1 hd
        (List.mem_map_of_mem Prod.fst hm)
      simp only [Cache.evictOldest, heq]
      rw [if_pos (hk kv hm).1]
      exact hlen
    · simp only [Cache.evictOldest, heq]
      rw [if_pos (hk kv hm).1]

/-- The item list `SetWithTTL` produces when the size check fires. -/
theorem setWithTTL_items_full {α : Type} {c : Cache α} {k : String} {v : α}
    {now ttl : Int} (hfull : (c.items.length : Int) ≥ c.maxSize) :
    (c.setWithTTL k v now ttl).items =
      setKey c.evictOldest.items k ⟨v, now + ttl⟩ := by
  simp [Cache.setWithTTL, hfull]

/-- The item list `SetWithTTL` produces when there is room. -/
theorem setWithTTL_items_room {α : Type} {c : Cache α} {k : String} {v : α}
    {now ttl : Int} (hroom : ¬ ((c.items.length : Int) ≥ c.maxSize)) :
    (c.setWithTTL k v now ttl).items = setKey c.items k ⟨v, now + ttl⟩ := by
  simp [Cache.setWithTTL, hroom]

/-- `SetWithTTL` keeps `maxSize`. -/
theorem setWithTTL_maxSize {α : Type} (c : Cache α) (k : String) (v : α)
    (now ttl : Int) : (c.setWithTTL k v now ttl).maxSize = c.maxSize := by
  by_cases hfull : (c.items.length : Int) ≥ c.maxSize
  · simp only [Cache.setWithTTL, if_pos hfull, Cache.evictOldest]
    by_cases hb : (oldestScan c.items ("", maxInt64)).1 ≠ ""
    · rw [if_pos hb]
    · rw [if_neg hb]
  · simp only [Cache.setWithTTL, if_neg hfull]

/-- A well-formed `SetWithTTL` preserves the cache invariant — in
particular the size bound. -/
theorem setWithTTL_inv {α : Type} {ms : Int} {c : Cache α} (hms : 1 ≤ ms)
    (h : cacheInv ms c) {k : String} (v : α) {now ttl : Int}
    (hk : k ≠ "") (hexp : now + ttl < maxInt64) :
    cacheInv ms (c.setWithTTL k v now ttl) := by
  obtain ⟨hsz, hd, hent, hlen⟩ := h
  have hmax : (c.setWithTTL k v now ttl).maxSize = ms := by
    rw [setWithTTL_maxSize]; exact hsz
  by_cases hfull : (c.items.length : Int) ≥ c.maxSize
  · have hne : c.items ≠ [] := by
      intro hnil
      rw [hnil, hsz] at hfull
      simp at hfull
      omega
    obtain ⟨kv, hmem, _hmin, hitems, hlen1, _hm⟩ := evictOldest_spec hne hent hd
    have hd2 : keysDistinct c.evictOldest.items := by
      rw [hitems]; exact keysDistinct_removeKey _ _ hd
    refine ⟨hmax, ?_, ?_, ?_⟩
    · rw [setWithTTL_items_full hfull]
      exact keysDistinct_setKey _ _ _ hd2
    · rw [setWithTTL_items_full hfull]
      intro kv2 hm2
      rcases mem_setKey _ _ _ _ hm2 with hnew | hold
      · subst hnew; exact ⟨hk, hexp⟩
      · rw [hitems] at hold
        exact hent kv2 (mem_removeKey hold)
    · rw [setWithTTL_items_full hfull]
      have hsk := setKey_length c.evictOldest.items k ⟨v, now + ttl⟩
      by_cases hmem2 : k ∈ c.evictOldest.items.map Prod.fst <;>
        · simp only [hmem2, if_pos, if_neg, if_true, if_false] at hsk
          rw [hsk]
          omega
  · refine ⟨hmax, ?_, ?_, ?_⟩
    · rw [setWithTTL_items_room hfull]
      exact keysDistinct_setKey _ _ _ hd
    · rw [setWithTTL_items_room hfull]
      intro kv2 hm2
      rcases mem_setKey _ _ _ _ hm2 with hnew | hold
      · subst hnew; exact ⟨hk, hexp⟩
      · exact hent kv2 hold
    · rw [setWithTTL_items_room hfull]
      rw [hsz] at hfull
      have hsk := setKey_length c.items k ⟨v, now + ttl⟩
      by_cases hmem2 : k ∈ c.items.map Prod.fst <;>
        · simp only [hmem2, if_pos, if_neg, if_true, if_false] at hsk
          rw [hsk]
          omega

/-- `Delete` preserves the cache invariant. -/
theorem delete_inv {α : Type} {ms : Int} {c : Cache α} (h : cacheInv ms c)
    (k : String) : cacheInv ms (c.delete k) := by
  obtain ⟨hsz, hd, hent, hlen⟩ := h
  refine ⟨hsz, keysDistinct_removeKey _ _ hd,
    fun kv hm => hent kv (mem_removeKey hm), ?_⟩
  have := List.length_filter_le (fun kv => kv.1 ≠ k) c.items
  simp only [Cache.delete, removeKey]
  omega

/-- `Clear` preserves the cache invariant. -/
theorem clear_inv {α : Type} {ms : Int} {c : Cache α} (hms : 1 ≤ ms)
    (h : cacheInv ms c) : cacheInv ms c.clear := by
  refine ⟨h.1, ?_, ?_, ?_⟩
  · simp [Cache.clear, keysDistinct]
  · simp [Cache.clear]
  · simp [Cache.clear]
    omega

/-- Every state reached by a well-formed operation sequence satisfies the
cache invariant. -/
theorem runCacheOps_inv {α : Type} {ms : Int} (hms : 1 ≤ ms) :
    ∀ (ops : List (CacheOp α)) (c : Cache α), cacheInv ms c →
      (∀ op ∈ ops, opOK op) → cacheInv ms (runCacheOps c ops) := by
  intro ops
  induction ops with
  | nil => intro c hc _; exact hc
  | cons op rest ih =>
    intro c hc hops
    have hop := hops op (List.mem_cons_self _ _)
    have hrest : ∀ o ∈ rest, opOK o :=
      fun o ho => hops o (List.mem_cons_of_mem _ ho)
    cases op with
    | set k v now ttl =>
      have hop' : k ≠ "" ∧ now + ttl < maxInt64 := hop
      exact ih _ (setWithTTL_inv hms hc v hop'.1 hop'.2) hrest
    | del k => exact ih _ (delete_inv hc k) hrest
    | clear => exact ih _ (clear_inv hms hc) hrest

/-- Running a concatenation is running the pieces in order. -/
theorem runCacheOps_append {α : Type} (l1 l2 : List (CacheOp α)) :
    ∀ c, runCacheOps c (l1 ++ l2) = runCacheOps (runCacheOps c l1) l2 := by
  induction l1 with
  | nil => intro c; rfl
  | cons op rest ih =>
    intro c
    cases op <;> simp only [List.cons_append, runCacheOps] <;> exact ih _

/-- C7 (amended): for every sequence of well-formed cache operations —
every set key nonempty and every expiration below the int64 sentinel, as
for all real `UnixNano` expirations — starting from an empty cache with
`max_size ≥ 1`: (a) the entry count never exceeds `max_size`, and (b)
whenever a set executes while the cache is full, the state removes an
entry of minimal expiration and adds the new binding.  (The counterexample
shows the bound fails when the empty string is used as a key: the eviction
scan cannot name it.) -/
theorem cache_bound_and_eviction_amended {α : Type} (ms : Int)
    (ops : List (CacheOp α)) (hms : 1 ≤ ms) (hops : ∀ op ∈ ops, opOK op) :
    (∀ i, (((runCacheOps (Cache.mk [] ms) (ops.take i)).items.length : Int) ≤ ms)) ∧
    (∀ i k v now ttl, ops[i]? = some (CacheOp.set k v now ttl) →
      (((runCacheOps (Cache.mk [] ms) (ops.take i)).items.length : Int) ≥ ms) →
      ∃ kv, kv ∈ (runCacheOps (Cache.mk [] ms) (ops.take i)).items ∧
        (∀ kv2 ∈ (runCacheOps (Cache.mk [] ms) (ops.take i)).items,
          kv.2.expiration ≤ kv2.2.expiration) ∧
        (runCacheOps (Cache.mk [] ms) (ops.take (i + 1))).items =
          setKey
            (removeKey (runCacheOps (Cache.mk [] ms) (ops.take i)).items kv.1)
            k ⟨v, now + ttl⟩) := by
  have hinit : cacheInv ms (Cache.mk ([] : List (String × Item α)) ms) :=
    ⟨rfl, by simp [keysDistinct], by simp, by simp; omega⟩
  have hinv : ∀ i, cacheInv ms (runCacheOps (Cache.mk [] ms) (ops.take i)) := by
    intro i
    refine runCacheOps_inv hms _ _ hinit ?_
    intro op hop
    exact hops op ((List.take_sublist i ops).subset hop)
  constructor
  · intro i
    exact (hinv i).2.2.2
  · intro i k v now ttl hi hfull
    obtain ⟨hsz, hd, hent, _hlen⟩ := hinv i
    have hne : (runCacheOps (Cache.mk [] ms) (ops.take i)).items ≠ [] := by
      intro hnil
      rw [hnil] at hfull
      simp at hfull
      omega
    obtain ⟨kv, hmem, hmin, hitems, _hlen1, _hmax⟩ := evictOldest_spec hne hent hd
    refine ⟨kv, hmem, hmin, ?_⟩
    have htake : ops.take (i + 1) = ops.take i ++ [CacheOp.set k v now ttl] := by
      rw [List.take_succ, hi]
      rfl
    rw [htake, runCacheOps_append]
    simp only [runCacheOps]
    rw [setWithTTL_items_full (by rw [hsz]; exact hfull), hitems]

/-- C7 counterexample: with `max_size = 1`, cache the empty-string key and
then insert another key — `evictOldest` finds the empty key as oldest but
its `oldestKey != ""` guard skips the deletion, so the cache grows to 2
entries, exceeding `max_size`. -/
theorem cache_empty_key_eviction_counterexample :
    (runCacheOps (Cache.mk ([] : List (String × Item Nat)) 1)
      [CacheOp.set "" 0 0 10, CacheOp.set "x" 0 0 10]).items.length = 2 ∧
    ¬ (((runCacheOps (Cache.mk ([] : List (String × Item Nat)) 1)
        [CacheOp.set "" 0 0 10, CacheOp.set "x" 0 0 10]).items.length : Int) ≤ 1) := by
  decide

/-- Concrete instance of `cache_bound_and_eviction_amended`: two inserts
into a size-1 cache stay within the bound. -/
theorem cache_bound_and_eviction_amended_witness :
    ((runCacheOps (Cache.mk ([] : List (String × Item Nat)) 1)
        ([CacheOp.set "a" 0 0 10, CacheOp.set "b" 0 0 5].take 2)).items.length : Int)
      ≤ 1 :=
  (cache_bound_and_eviction_amended 1
    [CacheOp.set "a" 0 0 10, CacheOp.set "b" 0 0 5]
    (by decide) (by decide)).1 2

end Isekai
